import Mathlib

/-!
# A verification development for the `intake-esgf` core

This file gives a shallow embedding, in Lean 4, of the parts of the
`intake-esgf` package that the accompanying specification describes:
the access planner (`intake_esgf/base.py: partition_infos`), the
HTTPS downloader (`base.py: download_and_verify`, `parallel_download`),
the per-driver error isolation of the federated search
(`intake_esgf/catalog.py: ESGFCatalog.search`), the version pruning of
reconciled rows (`catalog.py`), the download-rate link ranking
(`intake_esgf/database.py: sort_download_links`), the Globus transfer
monitor (`intake_esgf/core/globus.py: monitor_globus_transfer`), the
configuration toggles (`intake_esgf/config.py: Config.set`) and the
filename time-extent parsing used by the three index drivers.

Python strings are modelled as Lean `String`/`List Char`; machine floats
that only ever hold exact decimal bookkeeping values (rates, poll
intervals) are modelled as exact fractions (`Frac`); Python exceptions
are modelled with `Except`; the filesystem and remote services are
modelled as explicit oracle functions carried in an environment record.
-/

namespace IntakeESGF

/-! ## Character-list string utilities

Python string primitives (`split`, `in`, `max`, `replace`, `index`)
are embedded as executable functions on `List Char` so that concrete
witnesses evaluate inside the kernel.
-/

/-- Lexicographic strict comparison of char lists by code point, the
order Python uses to compare `str` values (e.g. in `max`). -/
def lexLtC : List Char → List Char → Bool
  | [], [] => false
  | [], _ :: _ => true
  | _ :: _, [] => false
  | a :: as, b :: bs =>
    if a.toNat < b.toNat then true
    else if b.toNat < a.toNat then false
    else lexLtC as bs

/-- `str.split(sep)` for a one-character separator: splits into the
(never empty) list of chunks between occurrences of `sep`. -/
def splitOnC (sep : Char) : List Char → List (List Char)
  | [] => [[]]
  | c :: cs =>
    let rest := splitOnC sep cs
    if c = sep then [] :: rest
    else match rest with
      | [] => [[c]]
      | r :: rs => (c :: r) :: rs

/-- Does `cs` start with `pat`? -/
def startsWithC : List Char → List Char → Bool
  | [], _ => true
  | _ :: _, [] => false
  | p :: ps, c :: cs => p = c && startsWithC ps cs

/-- Python's `pat in s` substring test on char lists. -/
def containsC (pat : List Char) : List Char → Bool
  | [] => startsWithC pat []
  | c :: cs => startsWithC pat (c :: cs) || containsC pat cs

/-- Python's `version in identifier` substring test on strings. -/
def strContains (s pat : String) : Bool := containsC pat.data s.data

/-- Python `max` over a list of strings; `""` is returned for the empty
list (where Python would raise), and is lexicographically below every
nonempty string, so on the nonempty lists the code actually passes this
agrees with Python. -/
def pyMaxStr (l : List String) : String :=
  l.foldl (fun a b => if lexLtC a.data b.data then b else a) ""

/-! ## C5 — version pruning of reconciled rows

`ESGFCatalog.search` (catalog.py lines 350-354) post-processes each
reconciled row:

    latest = max([x.split("|")[0].split(".")[-1] for x in row.id])
    self.df.loc[r, "id"] = [x for x in row.id if latest in x]

`ESGFCatalog.from_tracking_ids` (catalog.py lines 361-424) runs the same
federation and `combine_results` pipeline but contains no such loop.
-/

/-- `x.split("|")[0].split(".")[-1]`: the version suffix parsed from a
qualified dataset identifier. -/
def parseVersion (x : String) : String :=
  ⟨((splitOnC '|' x.data).headD [] |> splitOnC '.').getLastD []⟩

/-- `max([x.split("|")[0].split(".")[-1] for x in row.id])`. -/
def latestVersion (ids : List String) : String :=
  pyMaxStr (ids.map parseVersion)

/-- `[x for x in row.id if latest in x]`: the id pruning `search`
applies to each reconciled row (catalog.py lines 352-354). -/
def pruneRowIds (ids : List String) : List String :=
  ids.filter (fun x => strContains x (latestVersion ids))

/-- The row post-processing applied by `from_tracking_ids`: the method
re-uses `combine_results` but performs no version pruning on the `id`
lists of the resulting rows (catalog.py lines 400-424). -/
def trackingIdsRowIds (ids : List String) : List String := ids

/-- A contiguous occurrence of `part` inside `cs`. -/
def isSegment (part cs : List Char) : Prop :=
  ∃ pre post, cs = pre ++ part ++ post

lemma splitOnC_ne_nil (sep : Char) (cs : List Char) : splitOnC sep cs ≠ [] := by
  cases cs with
  | nil => simp [splitOnC]
  | cons c cs =>
    simp only [splitOnC]
    split
    · simp
    · split <;> simp

lemma splitOnC_headD_isPre (sep : Char) (cs : List Char) :
    ∃ post, cs = (splitOnC sep cs).headD [] ++ post := by
  induction cs with
  | nil => exact ⟨[], rfl⟩
  | cons c cs ih =>
    simp only [splitOnC]
    by_cases hc : c = sep
    · exact ⟨c :: cs, by simp [hc]⟩
    · obtain ⟨post, hpost⟩ := ih
      rcases hr : splitOnC sep cs with _ | ⟨r, rs⟩
      · exact absurd hr (splitOnC_ne_nil sep cs)
      · refine ⟨post, ?_⟩
        simp only [hc, if_false, hr, List.headD_cons, List.cons_append]
        rw [hr] at hpost
        simpa using hpost

lemma splitOnC_mem_isSegment (sep : Char) : ∀ (cs part : List Char),
    part ∈ splitOnC sep cs → isSegment part cs := by
  intro cs
  induction cs with
  | nil =>
    intro part h
    simp only [splitOnC, List.mem_singleton] at h
    exact ⟨[], [], by simp [h]⟩
  | cons c cs ih =>
    intro part h
    simp only [splitOnC] at h
    by_cases hc : c = sep
    · rw [if_pos hc] at h
      rcases List.mem_cons.mp h with h0 | h0
      · exact ⟨[], c :: cs, by simp [h0]⟩
      · obtain ⟨pre, post, hseg⟩ := ih part h0
        exact ⟨c :: pre, post, by simp [hseg]⟩
    · rw [if_neg hc] at h
      rcases hr : splitOnC sep cs with _ | ⟨r, rs⟩
      · exact absurd hr (splitOnC_ne_nil sep cs)
      · simp only [hr] at h
        rcases List.mem_cons.mp h with h0 | h0
        · obtain ⟨post, hpost⟩ := splitOnC_headD_isPre sep cs
          rw [hr, List.headD_cons] at hpost
          exact ⟨[], post, by simp [h0, hpost]⟩
        · obtain ⟨pre, post, hseg⟩ :=
            ih part (by rw [hr]; exact List.mem_cons_of_mem _ h0)
          exact ⟨c :: pre, post, by simp [hseg]⟩

lemma getLastD_mem {α : Type} : ∀ (l : List α) (d : α), l ≠ [] → l.getLastD d ∈ l := by
  intro l
  induction l with
  | nil => intro d h; exact absurd rfl h
  | cons a as ih =>
    intro d _
    rw [List.getLastD_cons]
    cases as with
    | nil => simp [List.getLastD]
    | cons b bs => exact List.mem_cons_of_mem _ (ih a (by simp))

lemma startsWithC_append (pat post : List Char) :
    startsWithC pat (pat ++ post) = true := by
  induction pat with
  | nil => simp [startsWithC]
  | cons p ps ih => simp [startsWithC, ih]

lemma containsC_startsWith (pat cs : List Char) (h : startsWithC pat cs = true) :
    containsC pat cs = true := by
  cases cs with
  | nil => simpa [containsC] using h
  | cons c cs' => simp [containsC, h]

lemma containsC_of_isSegment (part cs : List Char) (h : isSegment part cs) :
    containsC part cs = true := by
  obtain ⟨pre, post, rfl⟩ := h
  induction pre with
  | nil => exact containsC_startsWith _ _ (by simpa using startsWithC_append part post)
  | cons c pre ih =>
    simp only [containsC, Bool.or_eq_true]
    exact Or.inr (by simpa using ih)

lemma isSegment_trans (a b c : List Char) (hab : isSegment a b) (hbc : isSegment b c) :
    isSegment a c := by
  obtain ⟨p1, q1, rfl⟩ := hab
  obtain ⟨p2, q2, rfl⟩ := hbc
  exact ⟨p2 ++ p1, q1 ++ q2, by simp⟩

/-- A parsed version suffix always occurs contiguously inside the
identifier it was parsed from. -/
lemma parseVersion_isSegment (x : String) :
    isSegment (parseVersion x).data x.data := by
  have h1 : isSegment ((splitOnC '|' x.data).headD []) x.data := by
    obtain ⟨post, hpost⟩ := splitOnC_headD_isPre '|' x.data
    exact ⟨[], post, by simpa using hpost⟩
  have h2 : isSegment ((splitOnC '.' ((splitOnC '|' x.data).headD [])).getLastD [])
      ((splitOnC '|' x.data).headD []) :=
    splitOnC_mem_isSegment '.' _ _ (getLastD_mem _ _ (splitOnC_ne_nil '.' _))
  exact isSegment_trans _ _ _ h2 h1

lemma strContains_parseVersion (x : String) :
    strContains x (parseVersion x) = true :=
  containsC_of_isSegment _ _ (parseVersion_isSegment x)

lemma containsC_nil (cs : List Char) : containsC [] cs = true := by
  cases cs <;> simp [containsC, startsWithC]

lemma foldl_pick_mem {α : Type} (f : α → α → Bool) :
    ∀ (l : List α) (a : α), l.foldl (fun x y => if f x y then y else x) a = a ∨
      l.foldl (fun x y => if f x y then y else x) a ∈ l := by
  intro l
  induction l with
  | nil => intro a; exact Or.inl rfl
  | cons b bs ih =>
    intro a
    simp only [List.foldl_cons]
    by_cases hfb : f a b = true
    · rw [if_pos hfb]
      rcases ih b with h | h
      · exact Or.inr (by rw [h]; exact List.mem_cons_self _ _)
      · exact Or.inr (List.mem_cons_of_mem _ h)
    · rw [if_neg hfb]
      rcases ih a with h | h
      · exact Or.inl h
      · exact Or.inr (List.mem_cons_of_mem _ h)

/-- The maximum version is either attained by some identifier or is the
empty string (only possible in degenerate cases). -/
lemma latestVersion_attained (ids : List String) :
    latestVersion ids = "" ∨ ∃ x ∈ ids, parseVersion x = latestVersion ids := by
  unfold latestVersion pyMaxStr
  rcases foldl_pick_mem (fun a b => lexLtC a.data b.data) (ids.map parseVersion) "" with
    h | h
  · exact Or.inl h
  · obtain ⟨x, hx, hpx⟩ := List.mem_map.mp h
    exact Or.inr ⟨x, hx, hpx⟩

lemma strContains_empty_pat (x : String) : strContains x "" = true := by
  have h : ("" : String).data = [] := rfl
  rw [strContains, h]
  exact containsC_nil x.data

/-- C5 (counterexample): the pruning in `search` keeps every identifier
that merely CONTAINS the maximal version string (Python `latest in x`),
so an identifier whose version suffix is older but which mentions the
maximal version elsewhere survives, and the resulting version set is not
a singleton. -/
theorem C5_version_singleton_counterexample :
    "p.20190429x.20190306|n" ∈
        pruneRowIds ["p.20190429x.20190306|n", "p.a.20190429|n"]
    ∧ parseVersion "p.20190429x.20190306|n" = "20190306"
    ∧ latestVersion ["p.20190429x.20190306|n", "p.a.20190429|n"] = "20190429"
    ∧ ¬ (∀ x ∈ pruneRowIds ["p.20190429x.20190306|n", "p.a.20190429|n"],
          parseVersion x = latestVersion ["p.20190429x.20190306|n", "p.a.20190429|n"]) := by
  decide

/-- C5 (amended): after `search`, every identifier kept in a row contains
the row's maximal version as a substring, and the pruned list is nonempty;
when the maximal version occurs in an identifier only as its parsed
version suffix, the version set of the kept identifiers is the singleton
maximum. `from_tracking_ids` applies no version pruning at all. -/
theorem C5_version_prune_amended (ids : List String) :
    (∀ x ∈ pruneRowIds ids, strContains x (latestVersion ids) = true)
    ∧ (ids ≠ [] → pruneRowIds ids ≠ [])
    ∧ ((∀ x ∈ ids, strContains x (latestVersion ids) = true →
          parseVersion x = latestVersion ids) →
        ∀ x ∈ pruneRowIds ids, parseVersion x = latestVersion ids)
    ∧ trackingIdsRowIds ids = ids := by
  refine ⟨?_, ?_, ?_, rfl⟩
  · intro x hx
    unfold pruneRowIds at hx
    exact (List.mem_filter.mp hx).2
  · intro hne
    rcases latestVersion_attained ids with h | ⟨x₀, hx₀, hpx₀⟩
    · have hall : pruneRowIds ids = ids := by
        apply List.filter_eq_self.mpr
        intro x _
        rw [h]
        exact strContains_empty_pat x
      rw [hall]; exact hne
    · apply List.ne_nil_of_mem (a := x₀)
      apply List.mem_filter.mpr
      exact ⟨hx₀, by rw [← hpx₀]; exact strContains_parseVersion x₀⟩
  · intro hsuf x hx
    unfold pruneRowIds at hx
    obtain ⟨hmem, hpred⟩ := List.mem_filter.mp hx
    exact hsuf x hmem hpred

/-- C5 (witness): a concrete two-replica row where the maximal version
appears only as a suffix; the amended theorem yields a nonempty pruned
list carrying only the maximal version. -/
theorem C5_version_prune_witness :
    pruneRowIds ["a.b.20190306|n1", "a.b.20190429|n2"] ≠ []
    ∧ ∀ x ∈ pruneRowIds ["a.b.20190306|n1", "a.b.20190429|n2"],
        parseVersion x = latestVersion ["a.b.20190306|n1", "a.b.20190429|n2"] :=
  ⟨(C5_version_prune_amended _).2.1 (by decide),
   (C5_version_prune_amended _).2.2.1 (by decide)⟩

/-! ## C1 / C7 / C10 — the access planner `partition_infos`

Embedding of `base.py` lines 33-89 (`get_local_file`,
`get_globus_endpoints`) and 92-203 (`partition_infos`). The filesystem
and the Globus service are oracles in an `Env` record; the planner's
output dictionary `ds` is modelled as a total function defaulting to
`[]` (a missing dict key and an empty list are used interchangeably by
the code, which initializes `ds[key] = []` before appending).
-/

/-- One file-info record, restricted to the fields `partition_infos`
reads: `key`, `path`, and the access-option lists. A kind that is absent
from the Python dict is the empty list (an absent kind and an empty link
list fall through identically). `activeEndpoints` is the field the
planner itself writes (`infos[i]["active_endpoints"]`). -/
structure Info where
  key : String
  path : String
  virtualZarr : List String
  opendap : List String
  globusLinks : List String
  activeEndpoints : List String
deriving DecidableEq

/-- The world the planner interacts with. `headOk` records what a HEAD
request on a URL would answer (status 2xx); `partition_infos` issues no
such request, which `C7_stream_no_head_check` makes precise.
`endpointAcl uuid` is `get_endpoint(uuid)["acl_available"]`, with `none`
modelling a raised `TransferAPIError` (swallowed by the code). -/
structure Env where
  isFile : String → Bool
  dataroots : List String
  localCache : List String
  endpointAcl : String → Option Bool
  headOk : String → Bool

/-- `get_local_file` (base.py lines 33-58): the first root under which
the relative path exists as a file; `none` models the raised
`FileNotFoundError`. -/
def getLocalFile (isFile : String → Bool) (roots : List String) (path : String) :
    Option String :=
  match roots with
  | [] => none
  | r :: rest =>
    let f := r ++ "/" ++ path
    if isFile f then some f else getLocalFile isFile rest path

/-- A character allowed in the regex group `[a-z0-9\-]`. -/
def isUuidChar (c : Char) : Bool :=
  ('a'.toNat ≤ c.toNat && c.toNat ≤ 'z'.toNat)
  || ('0'.toNat ≤ c.toNat && c.toNat ≤ '9'.toNat)
  || c = '-'

/-- Match the regex `globus:/*([a-z0-9\-]+)/(.*)` anchored at the start
of `cs`, returning the first group. Since `/` is not in the group's
class, the greedy run-then-require-`/` reading is exactly the regex's
backtracking semantics. -/
def globusMatchAt (cs : List Char) : Option (List Char) :=
  if startsWithC ['g', 'l', 'o', 'b', 'u', 's', ':'] cs then
    let rest2 := (cs.drop 7).dropWhile (fun c => c = '/')
    let uuid := rest2.takeWhile isUuidChar
    match rest2.dropWhile isUuidChar with
    | '/' :: _ => if uuid.isEmpty then none else some uuid
    | _ => none
  else none

/-- `re.search` of the Globus-link pattern: try every start position. -/
def globusSearch : List Char → Option (List Char)
  | [] => none
  | c :: cs =>
    match globusMatchAt (c :: cs) with
    | some u => some u
    | none => globusSearch cs

/-- `get_globus_endpoints` (base.py lines 61-89): parse the endpoint
UUID out of each `Globus` link; an unparseable link raises `ValueError`
(the `.error` case). An info without the `Globus` key has `links = []`
and yields `.ok []`. -/
def getGlobusEndpoints : List String → Except Unit (List String)
  | [] => .ok []
  | l :: rest =>
    match globusSearch l.data with
    | none => .error ()
    | some u =>
      match getGlobusEndpoints rest with
      | .error e => .error e
      | .ok us => .ok (String.mk u :: us)

/-- The planner's running state: the output path dictionary, the four
partitions, and the memoized set of endpoints found active so far. -/
structure PState where
  ds : String → List String
  exist : List Info
  stream : List Info
  globus : List Info
  https : List Info
  activeEps : List String

/-- Pointwise dictionary update `ds[k] = v`. -/
def dsUpdate (ds : String → List String) (k : String) (v : List String) :
    String → List String :=
  fun q => if q = k then v else ds q

/-- `infos[i]["active_endpoints"] = source_endpoints` (base.py line 186). -/
def withActive (info : Info) (eps : List String) : Info :=
  { info with activeEndpoints := eps }

/-- The `for uuid in source_endpoints` loop (base.py lines 172-181):
memoize every queried endpoint that reports `acl_available`. -/
def checkEndpoints (env : Env) (activeEps srcEps : List String) : List String :=
  srcEps.foldl
    (fun acc uuid =>
      if uuid ∈ acc then acc
      else match env.endpointAcl uuid with
        | some true => acc ++ [uuid]
        | _ => acc)
    activeEps

/-- One iteration of the `for i, info in enumerate(infos)` loop of
`partition_infos` (base.py lines 135-192). The streaming-link list fixes
one traversal order for Python's unordered `set(preferred_sources) &
set(info)`; none of the proved properties depend on that order. -/
def stepInfo (env : Env) (preferStreaming preferGlobus : Bool) (st : PState)
    (info : Info) : Except Unit PState :=
  match getLocalFile env.isFile (env.dataroots ++ env.localCache) info.path with
  | some p =>
    .ok { st with
          ds := dsUpdate st.ds info.key (st.ds info.key ++ [p]),
          exist := st.exist ++ [info] }
  | none =>
    if preferStreaming && !(info.virtualZarr ++ info.opendap).isEmpty then
      .ok { st with
            ds := dsUpdate st.ds info.key [(info.virtualZarr ++ info.opendap).headD ""],
            stream := st.stream ++ [info] }
    else if preferGlobus then
      match getGlobusEndpoints info.globusLinks with
      | .error e => .error e
      | .ok srcEps =>
        if !((checkEndpoints env st.activeEps srcEps).filter
              (fun u => u ∈ srcEps)).isEmpty then
          .ok { st with
                globus := st.globus ++
                  [withActive info ((checkEndpoints env st.activeEps srcEps).filter
                    (fun u => u ∈ srcEps))],
                activeEps := checkEndpoints env st.activeEps srcEps }
        else
          .ok { st with
                https := st.https ++ [info],
                activeEps := checkEndpoints env st.activeEps srcEps }
    else
      .ok { st with https := st.https ++ [info] }

/-- The loop of `partition_infos` over all infos. -/
def partitionAux (env : Env) (preferStreaming preferGlobus : Bool) :
    PState → List Info → Except Unit PState
  | st, [] => .ok st
  | st, i :: rest =>
    match stepInfo env preferStreaming preferGlobus st i with
    | .error e => .error e
    | .ok st' => partitionAux env preferStreaming preferGlobus st' rest

/-- The empty starting state (`ds = {}`, four empty partitions, no
memoized endpoints, no transfer client yet). -/
def initPState : PState :=
  { ds := fun _ => [], exist := [], stream := [], globus := [], https := [],
    activeEps := [] }

/-- `partition_infos(infos, prefer_streaming, prefer_globus)`
(base.py lines 92-203). -/
def partitionInfos (env : Env) (infos : List Info)
    (preferStreaming preferGlobus : Bool) : Except Unit PState :=
  partitionAux env preferStreaming preferGlobus initPState infos

/-- Total number of classified records across the four partitions. -/
def bucketCount (st : PState) : ℕ :=
  st.exist.length + st.stream.length + st.globus.length + st.https.length

lemma stepInfo_count (env : Env) (ps pg : Bool) (st : PState) (info : Info)
    (st' : PState) (h : stepInfo env ps pg st info = .ok st') :
    bucketCount st' = bucketCount st + 1 := by
  unfold stepInfo at h
  cases hl : getLocalFile env.isFile (env.dataroots ++ env.localCache) info.path with
  | some p =>
    simp only [hl] at h
    cases h
    simp only [bucketCount, List.length_append, List.length_cons, List.length_nil]
    omega
  | none =>
    simp only [hl] at h
    by_cases hps : (ps && !(info.virtualZarr ++ info.opendap).isEmpty) = true
    · rw [if_pos hps] at h
      cases h
      simp only [bucketCount, List.length_append, List.length_cons, List.length_nil]
      omega
    · rw [if_neg hps] at h
      by_cases hpg : pg = true
      · rw [if_pos hpg] at h
        cases hg : getGlobusEndpoints info.globusLinks with
        | error e => simp only [hg] at h; exact absurd h (by simp)
        | ok srcEps =>
          simp only [hg] at h
          by_cases hsa : (!((checkEndpoints env st.activeEps srcEps).filter
              (fun u => u ∈ srcEps)).isEmpty) = true
          · rw [if_pos hsa] at h
            cases h
            simp only [bucketCount, List.length_append, List.length_cons,
              List.length_nil]
            omega
          · rw [if_neg hsa] at h
            cases h
            simp only [bucketCount, List.length_append, List.length_cons,
              List.length_nil]
            omega
      · rw [if_neg hpg] at h
        cases h
        simp only [bucketCount, List.length_append, List.length_cons, List.length_nil]
        omega

lemma partitionAux_count (env : Env) (ps pg : Bool) :
    ∀ (infos : List Info) (st st' : PState),
      partitionAux env ps pg st infos = .ok st' →
      bucketCount st' = bucketCount st + infos.length := by
  intro infos
  induction infos with
  | nil =>
    intro st st' h
    cases h
    simp
  | cons i rest ih =>
    intro st st' h
    unfold partitionAux at h
    cases hs : stepInfo env ps pg st i with
    | error e => rw [hs] at h; exact absurd h (by simp)
    | ok st1 =>
      rw [hs] at h
      have h1 := ih st1 st' h
      rw [h1, stepInfo_count env ps pg st i st1 hs]
      simp [List.length_cons]
      omega

/-- C1: for every input list of file infos and both flags, whenever the
planner completes (it raises `ValueError` only on an unparseable Globus
link), each input record lands in exactly one of the four partitions:
the lengths of `exist`, `stream`, `globus` and `https` sum to the
length of the input. -/
theorem C1_partition_exhaustive (env : Env) (infos : List Info)
    (preferStreaming preferGlobus : Bool) (st : PState)
    (h : partitionInfos env infos preferStreaming preferGlobus = .ok st) :
    st.exist.length + st.stream.length + st.globus.length + st.https.length
      = infos.length := by
  have hc := partitionAux_count env preferStreaming preferGlobus infos initPState st h
  simpa [bucketCount, initPState] using hc

/-- An environment with one local file and one live Globus endpoint,
used to exercise all four planner branches. -/
def c1Env : Env :=
  { isFile := fun f => f = "/root/cache/CMIP6/a/f1.nc",
    dataroots := ["/data"],
    localCache := ["/root/cache"],
    endpointAcl := fun u => if u = "aaaa-bbbb" then some true else none,
    headOk := fun _ => true }

/-- Four file infos hitting, in order, the exist, stream, globus and
https branches. -/
def c1Infos : List Info :=
  [{ key := "k1", path := "CMIP6/a/f1.nc", virtualZarr := [], opendap := [],
     globusLinks := [], activeEndpoints := [] },
   { key := "k2", path := "CMIP6/a/f2.nc", virtualZarr := [],
     opendap := ["https://dap.org/f2.nc"], globusLinks := [], activeEndpoints := [] },
   { key := "k3", path := "CMIP6/a/f3.nc", virtualZarr := [], opendap := [],
     globusLinks := ["globus://aaaa-bbbb/CMIP6/a/f3.nc"], activeEndpoints := [] },
   { key := "k4", path := "CMIP6/a/f4.nc", virtualZarr := [], opendap := [],
     globusLinks := [], activeEndpoints := [] }]

/-- The planner state produced on the concrete example. -/
def c1Result : PState :=
  match partitionInfos c1Env c1Infos true true with
  | .ok st => st
  | .error _ => initPState

/-- C1 (witness): on the concrete four-info input the planner completes
and the four partition lengths sum to four. -/
theorem C1_partition_exhaustive_witness :
    c1Result.exist.length + c1Result.stream.length + c1Result.globus.length
      + c1Result.https.length = c1Infos.length :=
  C1_partition_exhaustive c1Env c1Infos true true c1Result rfl

/-- An environment with no local files, no Globus, and every HEAD
request failing. -/
def c7Env : Env :=
  { isFile := fun _ => false, dataroots := [], localCache := [],
    endpointAcl := fun _ => none, headOk := fun _ => false }

/-- A file info whose only access option is one OPENDAP link. -/
def c7Info : Info :=
  { key := "k", path := "CMIP6/a/f.nc", virtualZarr := [],
    opendap := ["https://dap.org/f.nc"], globusLinks := [], activeEndpoints := [] }

/-- The planner state on the single OPENDAP-only info. -/
def c7Result : PState :=
  match partitionInfos c7Env [c7Info] true false with
  | .ok st => st
  | .error _ => initPState

/-- C7 (counterexample): in a world where every HEAD request fails
(non-2xx), the planner still classifies the OPENDAP-only info as
`stream`: `partition_infos` (base.py lines 152-165) performs no HEAD
verification, so the claimed only-after-2xx-verification behavior is
false. -/
theorem C7_head_verification_counterexample :
    partitionInfos c7Env [c7Info] true false = .ok c7Result
    ∧ c7Result.stream = [c7Info]
    ∧ c7Env.headOk "https://dap.org/f.nc" = false :=
  ⟨rfl, rfl, rfl⟩

/-- C7 (amended): with `prefer_streaming` enabled, a file info not found
locally that carries a VirtualZarr or OPENDAP link is classified as
`stream` unconditionally — the planner's behavior does not depend on
HEAD outcomes at all — and it falls through past the stream branch
exactly when no such link exists. -/
theorem C7_stream_no_head_check (isF : String → Bool) (dr lc : List String)
    (acl : String → Option Bool) (h₁ h₂ : String → Bool) (pg : Bool)
    (st : PState) (info : Info) :
    (∀ ps, stepInfo ⟨isF, dr, lc, acl, h₁⟩ ps pg st info
        = stepInfo ⟨isF, dr, lc, acl, h₂⟩ ps pg st info)
    ∧ (getLocalFile isF (dr ++ lc) info.path = none →
        info.virtualZarr ++ info.opendap ≠ [] →
        ∃ st', stepInfo ⟨isF, dr, lc, acl, h₁⟩ true pg st info = .ok st'
          ∧ st'.stream = st.stream ++ [info])
    ∧ (getLocalFile isF (dr ++ lc) info.path = none →
        info.virtualZarr ++ info.opendap = [] →
        ∀ st', stepInfo ⟨isF, dr, lc, acl, h₁⟩ true pg st info = .ok st' →
          st'.stream = st.stream) := by
  refine ⟨fun ps => rfl, ?_, ?_⟩
  · intro hlocal hlinks
    have hE : (info.virtualZarr ++ info.opendap).isEmpty = false := by
      cases hE' : (info.virtualZarr ++ info.opendap).isEmpty
      · rfl
      · exact absurd (List.isEmpty_iff.mp hE') hlinks
    refine ⟨{ st with
        ds := dsUpdate st.ds info.key [(info.virtualZarr ++ info.opendap).headD ""],
        stream := st.stream ++ [info] }, ?_, rfl⟩
    unfold stepInfo
    simp [hlocal, hE]
  · intro hlocal hnil st' h
    unfold stepInfo at h
    simp only [hlocal, hnil, List.isEmpty_nil, Bool.not_true, Bool.and_false,
      Bool.false_eq_true, if_false] at h
    by_cases hpg : pg = true
    · rw [if_pos hpg] at h
      cases hg : getGlobusEndpoints info.globusLinks with
      | error e => simp only [hg] at h; exact absurd h (by simp)
      | ok srcEps =>
        simp only [hg] at h
        by_cases hsa : (!((checkEndpoints ⟨isF, dr, lc, acl, h₁⟩ st.activeEps
            srcEps).filter (fun u => u ∈ srcEps)).isEmpty) = true
        · rw [if_pos hsa] at h
          cases h
          rfl
        · rw [if_neg hsa] at h
          cases h
          rfl
    · rw [if_neg hpg] at h
      cases h
      rfl

/-- C7 (witness): on the concrete OPENDAP-only info in the all-HEAD-fail
world, the amended theorem classifies it as `stream`. -/
theorem C7_stream_no_head_check_witness :
    ∃ st', stepInfo c7Env true false initPState c7Info = .ok st'
      ∧ st'.stream = initPState.stream ++ [c7Info] :=
  (C7_stream_no_head_check c7Env.isFile c7Env.dataroots c7Env.localCache
    c7Env.endpointAcl c7Env.headOk c7Env.headOk false initPState c7Info).2.1
    rfl (by decide)

/-- A planner state whose path dictionary already holds a path under the
key `"k"` (for example from an earlier info of the same dataset that was
classified `exist`). -/
def c10St : PState :=
  { initPState with ds := fun k => if k = "k" then ["/root/cache/prior.nc"] else [] }

/-- The state after the stream branch processes `c7Info` on top of
`c10St`. -/
def c10Result : PState :=
  match stepInfo c7Env true false c10St c7Info with
  | .ok st => st
  | .error _ => initPState

/-- C10: in the planner, the stream branch assigns
`ds[key] = [links[0]]`, overwriting whatever list was previously
accumulated under that key, whereas the exist branch appends
(`ds[key].append(local_path)`) to the previously accumulated list
(base.py lines 135-165). -/
theorem C10_stream_path_overwrite (env : Env) (pg : Bool) (st : PState)
    (info : Info) :
    (getLocalFile env.isFile (env.dataroots ++ env.localCache) info.path = none →
      info.virtualZarr ++ info.opendap ≠ [] →
      ∀ st', stepInfo env true pg st info = .ok st' →
        st'.ds info.key = [(info.virtualZarr ++ info.opendap).headD ""])
    ∧ (∀ p, getLocalFile env.isFile (env.dataroots ++ env.localCache) info.path
          = some p →
      ∀ ps st', stepInfo env ps pg st info = .ok st' →
        st'.ds info.key = st.ds info.key ++ [p]) := by
  constructor
  · intro hlocal hlinks st' h
    have hE : (info.virtualZarr ++ info.opendap).isEmpty = false := by
      cases hE' : (info.virtualZarr ++ info.opendap).isEmpty
      · rfl
      · exact absurd (List.isEmpty_iff.mp hE') hlinks
    unfold stepInfo at h
    simp only [hlocal, hE, Bool.not_false, Bool.and_true, if_true] at h
    cases h
    simp [dsUpdate]
  · intro p hlocal ps st' h
    unfold stepInfo at h
    simp only [hlocal] at h
    cases h
    simp [dsUpdate]

/-- C10 (witness): on the concrete state that already holds
`["/root/cache/prior.nc"]` under key `"k"`, classifying the OPENDAP-only
info as stream leaves exactly the single streaming URL under `"k"`,
discarding the prior path. -/
theorem C10_stream_path_overwrite_witness :
    c10St.ds "k" = ["/root/cache/prior.nc"]
    ∧ c10Result.ds "k" = ["https://dap.org/f.nc"] :=
  ⟨rfl,
    (C10_stream_path_overwrite c7Env false c10St c7Info).1 rfl (by decide)
      c10Result rfl⟩

/-! ## C4 — per-driver error isolation in the federated search

Embedding of the `_search` closure in `ESGFCatalog.search`
(catalog.py lines 291-302) and the threaded fan-out that maps it over
the enabled indices. A driver call outcome is `Except PyExc Frame`;
`requests.exceptions.RequestException` covers connection failures, read
timeouts and the `HTTPError` raised by `raise_for_status` on a non-2xx
response, all of which the `except` clause catches.
-/

/-- The transport failures that are subclasses of
`requests.exceptions.RequestException`. -/
inductive TransportKind where
  | connection : TransportKind
  | timeout : TransportKind
  | httpStatus : TransportKind
deriving DecidableEq

/-- The exceptions a driver's `search` can raise, as seen by the
`except` clauses of the `_search` closure. -/
inductive PyExc where
  | noSearchResults : PyExc
  | requestExc : TransportKind → PyExc
  | other : String → PyExc
deriving DecidableEq

/-- Is the outcome an exception that neither `except` clause catches? -/
def isOtherErr : Except PyExc (List String) → Bool
  | .error (.other _) => true
  | _ => false

/-- The `_search` closure (catalog.py lines 291-302): a
`NoSearchResults` becomes an empty frame, a `RequestException` becomes
an empty frame plus one `warnings.warn` (the second component counts
user-visible warnings), anything else propagates. -/
def searchOne (outcome : Except PyExc (List String)) :
    Except PyExc (List String × ℕ) :=
  match outcome with
  | .ok df => .ok (df, 0)
  | .error .noSearchResults => .ok ([], 0)
  | .error (.requestExc _) => .ok ([], 1)
  | .error (.other m) => .error (.other m)

/-- The fan-out of `_search` over every enabled index
(catalog.py line 335). -/
def federateSearch : List (Except PyExc (List String)) →
    Except PyExc (List (List String × ℕ))
  | [] => .ok []
  | d :: rest =>
    match searchOne d with
    | .error e => .error e
    | .ok r =>
      match federateSearch rest with
      | .error e => .error e
      | .ok rs => .ok (r :: rs)

lemma searchOne_ok_of_not_other (d : Except PyExc (List String))
    (h : isOtherErr d = false) : ∃ r, searchOne d = .ok r := by
  cases d with
  | ok df => exact ⟨(df, 0), rfl⟩
  | error e =>
    cases e with
    | noSearchResults => exact ⟨([], 0), rfl⟩
    | requestExc k => exact ⟨([], 1), rfl⟩
    | other m => exact absurd h (by simp [isOtherErr])

lemma searchOne_error_other (d : Except PyExc (List String)) (e : PyExc)
    (h : searchOne d = .error e) : ∃ m, e = PyExc.other m := by
  cases d with
  | ok df => exact absurd h (by simp [searchOne])
  | error e' =>
    cases e' with
    | noSearchResults => exact absurd h (by simp [searchOne])
    | requestExc k => exact absurd h (by simp [searchOne])
    | other m =>
      refine ⟨m, ?_⟩
      simp only [searchOne] at h
      cases h
      rfl

/-- C4: in the federated search, a driver raising `NoSearchResults`
contributes an empty frame with no warning, a driver raising a transport
error (connection, timeout, non-2xx HTTP) contributes an empty frame
with exactly one user-visible warning, a successful driver contributes
its frame; when no driver raises a non-transport exception the fan-out
itself never throws and yields one contribution per driver, and a
non-transport exception propagates out of the fan-out. -/
theorem C4_federation_error_isolation :
    (searchOne (.error .noSearchResults) = .ok ([], 0))
    ∧ (∀ k, searchOne (.error (.requestExc k)) = .ok ([], 1))
    ∧ (∀ df, searchOne (.ok df) = .ok (df, 0))
    ∧ (∀ drivers : List (Except PyExc (List String)),
        (∀ d ∈ drivers, isOtherErr d = false) →
        ∃ res, federateSearch drivers = .ok res ∧ res.length = drivers.length)
    ∧ (∀ drivers : List (Except PyExc (List String)),
        (∃ d ∈ drivers, isOtherErr d = true) →
        ∃ m, federateSearch drivers = .error (.other m)) := by
  refine ⟨rfl, fun k => rfl, fun df => rfl, ?_, ?_⟩
  · intro drivers
    induction drivers with
    | nil => intro _; exact ⟨[], rfl, rfl⟩
    | cons d rest ih =>
      intro hall
      obtain ⟨r, hr⟩ := searchOne_ok_of_not_other d (hall d (List.mem_cons_self d rest))
      obtain ⟨res, hres, hlen⟩ :=
        ih (fun d' hd' => hall d' (List.mem_cons_of_mem d hd'))
      refine ⟨r :: res, ?_, by simp [hlen]⟩
      unfold federateSearch
      rw [hr, hres]
  · intro drivers
    induction drivers with
    | nil => intro ⟨d, hd, _⟩; exact absurd hd (List.not_mem_nil d)
    | cons d rest ih =>
      intro ⟨d', hd', hother⟩
      cases hs : searchOne d with
      | error e =>
        obtain ⟨m, hm⟩ := searchOne_error_other d e hs
        refine ⟨m, ?_⟩
        unfold federateSearch
        rw [hs, hm]
      | ok r =>
        rcases List.mem_cons.mp hd' with h0 | h0
        · subst h0
          obtain ⟨m, hm⟩ : ∃ m, d' = Except.error (PyExc.other m) := by
            cases d' with
            | ok _ => exact absurd hother (by simp [isOtherErr])
            | error e' =>
              cases e' with
              | noSearchResults => exact absurd hother (by simp [isOtherErr])
              | requestExc k => exact absurd hother (by simp [isOtherErr])
              | other m => exact ⟨m, rfl⟩
          rw [hm] at hs
          exact absurd hs (by simp [searchOne])
        · obtain ⟨m, hm⟩ := ih ⟨d', h0, hother⟩
          refine ⟨m, ?_⟩
          unfold federateSearch
          rw [hs, hm]

/-- C4 (witness): three drivers — one successful, one raising
`NoSearchResults`, one timing out — federate without throwing into three
contributions. -/
theorem C4_federation_error_isolation_witness :
    ∃ res, federateSearch [Except.ok ["row1"],
        Except.error PyExc.noSearchResults,
        Except.error (PyExc.requestExc TransportKind.timeout)] = .ok res
      ∧ res.length = 3 :=
  C4_federation_error_isolation.2.2.2.1 _ (by decide)

/-! ## C9 — `Config.set` bulk toggles

Embedding of the index-table manipulation in `Config.set`
(config.py lines 158-190): the `no_indices` loop runs over
`["globus_indices", "solr_indices", "stac_indices"]` and disables every
entry of all three tables; the explicit `indices` updates are merged
into each table for the keys that table already has; the `all_indices`
loop runs over `["globus_indices", "solr_indices"]` only (the source
comments `# exclude STAC for now`) and enables those two tables.
-/

/-- The three enabled-flag tables of the configuration. -/
structure ConfTables where
  globusIdx : List (String × Bool)
  solrIdx : List (String × Bool)
  stacIdx : List (String × Bool)
deriving DecidableEq

/-- Set every entry of a table to `v` (the `for key in self[index_type]`
loops). -/
def setAll (t : List (String × Bool)) (v : Bool) : List (String × Bool) :=
  t.map (fun p => (p.1, v))

/-- `self[index_type].update({k: v for k, v in indices.items() if k in
self[index_type]})`: update the entries whose key the table already has,
leave the rest. -/
def mergeIdx (t upd : List (String × Bool)) : List (String × Bool) :=
  t.map (fun p =>
    match upd.lookup p.1 with
    | some v => (p.1, v)
    | none => p)

/-- The index-table portion of `Config.set(indices, no_indices,
all_indices)` in source order: `no_indices` first, then the `indices`
merges, then `all_indices`. -/
def configSet (c : ConfTables) (indices : List (String × Bool))
    (noIdx allIdx : Bool) : ConfTables :=
  let c1 := if noIdx then
      ⟨setAll c.globusIdx false, setAll c.solrIdx false, setAll c.stacIdx false⟩
    else c
  let c2 : ConfTables :=
    ⟨mergeIdx c1.globusIdx indices, mergeIdx c1.solrIdx indices,
      mergeIdx c1.stacIdx indices⟩
  if allIdx then ⟨setAll c2.globusIdx true, setAll c2.solrIdx true, c2.stacIdx⟩
  else c2

lemma mergeIdx_nil (t : List (String × Bool)) : mergeIdx t [] = t := by
  unfold mergeIdx
  have h : ∀ p : String × Bool,
      (match ([] : List (String × Bool)).lookup p.1 with
        | some v => (p.1, v)
        | none => p) = p := by
    intro p
    rfl
  simp only [h]
  exact List.map_id _

/-- C9 (counterexample): `Config.set(no_indices=True)` disables the STAC
table too, so the claim that both bulk toggles leave `stac_indices`
unchanged is false. -/
theorem C9_stac_untouched_counterexample :
    (configSet
        ⟨[("ESGF2-US-1.5-Catalog", true)], [("esgf.ceda.ac.uk", false)],
          [("api.stac.ceda.ac.uk", true)]⟩
        [] true false).stacIdx = [("api.stac.ceda.ac.uk", false)]
    ∧ ([("api.stac.ceda.ac.uk", false)] : List (String × Bool))
        ≠ [("api.stac.ceda.ac.uk", true)] := by
  constructor
  · rfl
  · decide

/-- C9 (amended): `all_indices=True` enables every entry of the globus
and solr tables and leaves the STAC table exactly unchanged, but
`no_indices=True` disables every entry of all three tables, the STAC
table included. -/
theorem C9_bulk_toggles_amended (c : ConfTables) :
    ((configSet c [] false true).stacIdx = c.stacIdx)
    ∧ ((configSet c [] false true).globusIdx = setAll c.globusIdx true)
    ∧ ((configSet c [] false true).solrIdx = setAll c.solrIdx true)
    ∧ ((configSet c [] true false).stacIdx = setAll c.stacIdx false)
    ∧ ((configSet c [] true false).globusIdx = setAll c.globusIdx false)
    ∧ ((configSet c [] true false).solrIdx = setAll c.solrIdx false) := by
  unfold configSet
  simp [mergeIdx_nil]

/-! ## Exact fractions

The Python floats the code manipulates (download rates, random draws,
poll intervals) only ever hold exact decimal bookkeeping values, so they
are modelled as exact fractions `num / den` with positive denominators.
Arithmetic is cross-multiplication without normalization, which the
kernel evaluates directly.
-/

/-- An exact fraction `num / den`; every denominator the development
constructs is positive. -/
structure Frac where
  num : Int
  den : Nat
deriving DecidableEq

/-- Order by cross-multiplication (sound when denominators are
positive). -/
def Frac.le (a b : Frac) : Bool :=
  decide (a.num * (b.den : Int) ≤ b.num * (a.den : Int))

/-- Cross-multiplied addition. -/
def Frac.add (a b : Frac) : Frac :=
  ⟨a.num * b.den + b.num * a.den, a.den * b.den⟩

/-- Componentwise multiplication. -/
def Frac.mul (a b : Frac) : Frac := ⟨a.num * b.num, a.den * b.den⟩

/-- `min` of two fractions. -/
def Frac.minF (a b : Frac) : Frac := if Frac.le a b then a else b

/-- Semantic equality of fractions (`9/2 = 18/4`). -/
def Frac.equiv (a b : Frac) : Bool :=
  decide (a.num * (b.den : Int) = b.num * (a.den : Int))

/-! ## C6 — download-link ranking and attempt order

Embedding of `sort_download_links` (database.py lines 84-105) and its
use in `parallel_download` (base.py lines 321-327):

    info["HTTPServer"] = sorted(
        info["HTTPServer"], key=partial(sort_download_links, df_rate=df_rate)
    )
    for url in info["HTTPServer"]: ...

`np.random.rand(1)[0]` draws are modelled by an oracle `rnd : String →
ℚ` giving the value drawn while ranking a given link; Python's `sorted`
is stable and ascending by key, embedded as a stable insertion sort.
-/

/-- Position of the first occurrence of `'/'` at index `≥ start`
(`link.index("/", 10)`); `none` models the raised `ValueError`. -/
def findSlashFrom : List Char → ℕ → ℕ → Option ℕ
  | [], _, _ => none
  | c :: rest, i, start =>
    if start ≤ i && c = '/' then some i
    else findSlashFrom rest (i + 1) start

/-- Fuel-driven left-to-right non-overlapping replacement, the semantics
of Python `str.replace` for a nonempty pattern; the fuel is always the
input length so the zero-fuel fallback is never reached. -/
def replaceAllCFuel (pat repl : List Char) : ℕ → List Char → List Char
  | 0, cs => cs
  | _ + 1, [] => []
  | fuel + 1, c :: rest =>
    if startsWithC pat (c :: rest) && !pat.isEmpty then
      repl ++ replaceAllCFuel pat repl fuel ((c :: rest).drop pat.length)
    else
      c :: replaceAllCFuel pat repl fuel rest

/-- Python `str.replace(pat, repl)` for a nonempty pattern. -/
def replaceAllC (pat repl cs : List Char) : List Char :=
  replaceAllCFuel pat repl cs.length cs

/-- `link[: link.index("/", 10)].replace("http://", "").replace("https://", "")`
(database.py line 102 and base.py line 296). -/
def parseHost (link : String) : Option String :=
  match findSlashFrom link.data 0 10 with
  | none => none
  | some i =>
    some ⟨replaceAllC ['h', 't', 't', 'p', 's', ':', '/', '/'] []
      (replaceAllC ['h', 't', 't', 'p', ':', '/', '/'] [] (link.data.take i))⟩

/-- `df_rate["rate"].max()` over a nonempty table. -/
def maxRate : List (String × Frac) → Frac
  | [] => ⟨0, 1⟩
  | p :: rest => rest.foldl (fun a q => if Frac.le a q.2 then q.2 else a) p.2

/-- `sort_download_links(link, df_rate)` (database.py lines 84-105):
the mean rate of the link's host, or `max + rand()` for a host with no
recorded rate (or a bare `rand()` when the table is empty); `none`
models the `ValueError` from `link.index`. -/
def sortKeyLink (dfRate : List (String × Frac)) (rnd : String → Frac)
    (link : String) : Option Frac :=
  if dfRate.isEmpty then some (rnd link)
  else
    match parseHost link with
    | none => none
    | some host =>
      match dfRate.lookup host with
      | none => some (Frac.add (maxRate dfRate) (rnd link))
      | some r => some r

/-- Stable insertion into an ascending list: a new element goes before
the first strictly-greater-or-equal key, keeping earlier elements with
equal keys in front. -/
def insertAsc (x : String × Frac) : List (String × Frac) → List (String × Frac)
  | [] => [x]
  | y :: ys => if Frac.le x.2 y.2 then x :: y :: ys else y :: insertAsc x ys

/-- Python's stable ascending `sorted` by key. -/
def sortAsc : List (String × Frac) → List (String × Frac)
  | [] => []
  | x :: xs => insertAsc x (sortAsc xs)

/-- The URL order in which `parallel_download` attempts downloads
(base.py lines 321-327): the links sorted ascending by
`sort_download_links`. -/
def attemptOrder (dfRate : List (String × Frac)) (rnd : String → Frac)
    (links : List String) : Option (List String) :=
  match links.mapM (fun l => (sortKeyLink dfRate rnd l).map (fun q => (l, q))) with
  | none => none
  | some keyed => some ((sortAsc keyed).map Prod.fst)

/-- C6 (evaluation at the failing input): with recorded rates
A = 4 Mb/s and B = 1 Mb/s and host C absent (random draw 1/2), host C's
key 9/2 does exceed the observed maximum, but because `parallel_download`
sorts ascending by the rate key with no `reverse=True`, the attempt
order is B, A, C — the known slowest host first and the unknown host
last — not the C, A, B order the claim (and the docstring of
`sort_download_links`, which says the links are sorted "in terms of
what is fastest") requires. -/
theorem C6_attempt_order_eval :
    (sortKeyLink [("hosta.org", ⟨4, 1⟩), ("hostb.org", ⟨1, 1⟩)] (fun _ => ⟨1, 2⟩)
        "https://hostc.org/fc.nc").map (fun q => Frac.equiv q ⟨9, 2⟩) = some true
    ∧ attemptOrder [("hosta.org", ⟨4, 1⟩), ("hostb.org", ⟨1, 1⟩)] (fun _ => ⟨1, 2⟩)
        ["https://hosta.org/fa.nc", "https://hostb.org/fb.nc",
          "https://hostc.org/fc.nc"]
      = some ["https://hostb.org/fb.nc", "https://hosta.org/fa.nc",
          "https://hostc.org/fc.nc"]
    ∧ (some ["https://hostb.org/fb.nc", "https://hosta.org/fa.nc",
          "https://hostc.org/fc.nc"]
        ≠ some ["https://hostc.org/fc.nc", "https://hosta.org/fa.nc",
            "https://hostb.org/fb.nc"]) := by
  refine ⟨by decide, by decide, by decide⟩

/-! ## C8 — the Globus transfer monitor

Embedding of `monitor_globus_transfer` (core/globus.py lines 407-422):

    for task_doc in tasks:
        time_interval = 5.0
        response = client.get_task(task_doc["task_id"])
        while response["status"] == "ACTIVE":
            time.sleep(time_interval)
            time_interval = min(time_interval * 1.1, 30.0)
            response = client.get_task(task_doc["task_id"])
        if response.data["status"] != "SUCCEEDED":
            raise GlobusTransferError(response)

A task is modelled by the stream of statuses its successive `get_task`
calls return (`getTask : ℕ → String`; statuses are compared as strings
in the source). The loop is given fuel; `none` models a poll sequence
that stays `ACTIVE` beyond the fuel. The monitor performs no
`log_download_information` call (contrast `download_and_verify`,
base.py line 297), so the rate-store write list in its result is
always empty.
-/

/-- `time_interval = min(time_interval * 1.1, 30.0)`. -/
def intervalNext (i : Frac) : Frac := Frac.minF (Frac.mul i ⟨11, 10⟩) ⟨30, 1⟩

/-- The successive sleep intervals: 5 s, then `min(1.1·prev, 30)`. -/
def intervalSeq : ℕ → Frac
  | 0 => ⟨5, 1⟩
  | k + 1 => intervalNext (intervalSeq k)

/-- The polling loop: records each sleep interval, stops at the first
non-`ACTIVE` response. -/
def monitorLoop (getTask : ℕ → String) :
    ℕ → ℕ → Frac → List Frac → Option (List Frac × String)
  | 0, _, _, _ => none
  | fuel + 1, n, interval, sleeps =>
    if getTask n = "ACTIVE" then
      monitorLoop getTask fuel (n + 1) (intervalNext interval) (sleeps ++ [interval])
    else some (sleeps, getTask n)

/-- Poll a single task starting at a 5-second interval. -/
def monitorOne (getTask : ℕ → String) (fuel : ℕ) : Option (List Frac × String) :=
  monitorLoop getTask fuel 0 ⟨5, 1⟩ []

/-- One task's monitoring outcome: `GlobusTransferError(response)` on a
non-`SUCCEEDED` terminal response, otherwise success carrying the sleeps
and the (empty) list of rate-store writes performed. -/
def monitorTask (getTask : ℕ → String) (fuel : ℕ) :
    Option (Except String (List Frac × List (String × Frac × Frac))) :=
  match monitorOne getTask fuel with
  | none => none
  | some (sleeps, final) =>
    if final = "SUCCEEDED" then some (.ok (sleeps, []))
    else some (.error final)

/-- The `for task_doc in tasks` loop: tasks are polled in order, each
restarting at the 5-second interval; a raise aborts the loop. -/
def monitorGlobusTransfer (tasks : List (ℕ → String)) (fuel : ℕ) :
    Option (Except String Unit) :=
  match tasks with
  | [] => some (.ok ())
  | t :: rest =>
    match monitorTask t fuel with
    | none => none
    | some (.error r) => some (.error r)
    | some (.ok _) => monitorGlobusTransfer rest fuel

/-- The claim's "records a synthetic transfer measurement into the rate
store": the monitoring outcome carries at least one rate-store write. -/
def recordsMeasurement
    (r : Option (Except String (List Frac × List (String × Frac × Frac)))) :
    Prop :=
  ∃ sleeps w ws, r = some (.ok (sleeps, w :: ws))

lemma intervalSeq_bounds (j : ℕ) :
    0 < (intervalSeq j).den
    ∧ Frac.le ⟨5, 1⟩ (intervalSeq j) = true
    ∧ Frac.le (intervalSeq j) ⟨30, 1⟩ = true := by
  induction j with
  | zero => refine ⟨by decide, by decide, by decide⟩
  | succ k ih =>
    obtain ⟨hden, hlo, hhi⟩ := ih
    rcases hsq : intervalSeq k with ⟨n, d⟩
    rw [hsq] at hden hlo hhi
    simp only [Frac.le, decide_eq_true_eq] at hlo hhi
    simp only [intervalSeq, hsq, intervalNext, Frac.mul, Frac.minF]
    by_cases hcap : Frac.le ⟨n * 11, d * 10⟩ ⟨30, 1⟩ = true
    · rw [if_pos hcap]
      simp only [Frac.le, decide_eq_true_eq] at hcap ⊢
      refine ⟨by positivity, ?_, ?_⟩ <;>
        · simp only [Nat.cast_mul] at *
          push_cast at *
          nlinarith [hlo, hhi, hden]
    · rw [if_neg hcap]
      exact ⟨by decide, by decide, by decide⟩

lemma monitorLoop_invariant (getTask : ℕ → String) :
    ∀ (fuel k : ℕ) (sleeps : List Frac) (final : String),
      monitorLoop getTask fuel k (intervalSeq k)
          ((List.range k).map intervalSeq) = some (sleeps, final) →
      ∃ m, k ≤ m ∧ sleeps = (List.range m).map intervalSeq
        ∧ (∀ j, k ≤ j → j < m → getTask j = "ACTIVE")
        ∧ getTask m = final ∧ final ≠ "ACTIVE" := by
  intro fuel
  induction fuel with
  | zero => intro k sleeps final h; exact absurd h (by simp [monitorLoop])
  | succ fuel ih =>
    intro k sleeps final h
    unfold monitorLoop at h
    by_cases hact : getTask k = "ACTIVE"
    · rw [if_pos hact] at h
      have hstep : (List.range k).map intervalSeq ++ [intervalSeq k]
          = (List.range (k + 1)).map intervalSeq := by
        rw [List.range_succ, List.map_append]
        rfl
      have hnext : intervalNext (intervalSeq k) = intervalSeq (k + 1) := rfl
      rw [hstep, hnext] at h
      obtain ⟨m, hkm, hsleeps, hactive, hfinal, hne⟩ := ih (k + 1) sleeps final h
      refine ⟨m, by omega, hsleeps, ?_, hfinal, hne⟩
      intro j hkj hjm
      by_cases hj : j = k
      · rw [hj]; exact hact
      · exact hactive j (by omega) hjm
    · rw [if_neg hact] at h
      cases h
      exact ⟨k, le_refl k, rfl, fun j hkj hjk => (by omega : False).elim, rfl, hact⟩

/-- C8 (counterexample): a task whose first poll already reports
`SUCCEEDED` monitors successfully and records no rate-store measurement
at all — `monitor_globus_transfer` contains no write to the download
database, so the claimed synthetic measurement on success is never
made. -/
theorem C8_success_records_counterexample :
    monitorTask (fun _ => "SUCCEEDED") 1 = some (.ok ([], []))
    ∧ ¬ recordsMeasurement (monitorTask (fun _ => "SUCCEEDED") 1) := by
  constructor
  · rfl
  · intro ⟨sleeps, w, ws, hmem⟩
    have h : monitorTask (fun _ => "SUCCEEDED") 1 = some (.ok ([], [])) := rfl
    rw [h] at hmem
    cases hmem

/-- C8 (amended): the monitor polls each task until it leaves `ACTIVE`,
sleeping 5 s before the second poll and `min(1.1·prev, 30)` thereafter
(every interval stays within [5 s, 30 s]); a `SUCCEEDED` terminal status
completes that task with no rate-store measurement recorded, any other
terminal status raises `GlobusTransferError` carrying the terminal
response and aborts the loop over the remaining tasks. -/
theorem C8_monitor_poll_amended (getTask : ℕ → String) (fuel : ℕ) :
    (intervalSeq 0 = ⟨5, 1⟩
      ∧ ∀ k, intervalSeq (k + 1) = Frac.minF (Frac.mul (intervalSeq k) ⟨11, 10⟩) ⟨30, 1⟩)
    ∧ (∀ j, Frac.le ⟨5, 1⟩ (intervalSeq j) = true
        ∧ Frac.le (intervalSeq j) ⟨30, 1⟩ = true)
    ∧ (∀ sleeps final, monitorOne getTask fuel = some (sleeps, final) →
        ∃ m, sleeps = (List.range m).map intervalSeq
          ∧ (∀ j, j < m → getTask j = "ACTIVE")
          ∧ getTask m = final ∧ final ≠ "ACTIVE")
    ∧ (∀ sleeps final, monitorOne getTask fuel = some (sleeps, final) →
        final ≠ "SUCCEEDED" →
        monitorTask getTask fuel = some (.error final)
          ∧ ∀ rest, monitorGlobusTransfer (getTask :: rest) fuel
              = some (.error final))
    ∧ (∀ sleeps final, monitorOne getTask fuel = some (sleeps, final) →
        final = "SUCCEEDED" →
        monitorTask getTask fuel = some (.ok (sleeps, []))
          ∧ ¬ recordsMeasurement (monitorTask getTask fuel)) := by
  refine ⟨⟨rfl, fun k => rfl⟩, ?_, ?_, ?_, ?_⟩
  · intro j
    exact ⟨(intervalSeq_bounds j).2.1, (intervalSeq_bounds j).2.2⟩
  · intro sleeps final h
    obtain ⟨m, _, hsleeps, hactive, hfinal, hne⟩ :=
      monitorLoop_invariant getTask fuel 0 sleeps final h
    exact ⟨m, hsleeps, fun j hj => hactive j (Nat.zero_le j) hj, hfinal, hne⟩
  · intro sleeps final h hne
    have hm : monitorTask getTask fuel = some (.error final) := by
      unfold monitorTask
      simp only [h]
      rw [if_neg hne]
    refine ⟨hm, fun rest => ?_⟩
    unfold monitorGlobusTransfer
    rw [hm]
  · intro sleeps final h hsc
    have hm : monitorTask getTask fuel = some (.ok (sleeps, [])) := by
      unfold monitorTask
      simp only [h]
      rw [if_pos hsc]
    refine ⟨hm, ?_⟩
    intro ⟨sleeps', w, ws, hmem⟩
    rw [hm] at hmem
    simp at hmem

/-- C8 (witness): a task that is `ACTIVE` for two polls and then
`SUCCEEDED` sleeps 5 s then 5.5 s, completes, and records nothing. -/
theorem C8_monitor_poll_witness :
    (∃ m, [⟨5, 1⟩, ⟨55, 10⟩] = (List.range m).map intervalSeq
      ∧ (∀ j, j < m → (fun n => if n < 2 then "ACTIVE" else "SUCCEEDED") j = "ACTIVE")
      ∧ (fun n : ℕ => if n < 2 then "ACTIVE" else "SUCCEEDED") m = "SUCCEEDED"
      ∧ ("SUCCEEDED" : String) ≠ "ACTIVE")
    ∧ monitorTask (fun n => if n < 2 then "ACTIVE" else "SUCCEEDED") 10
        = some (.ok ([⟨5, 1⟩, ⟨55, 10⟩], [])) :=
  ⟨(C8_monitor_poll_amended (fun n => if n < 2 then "ACTIVE" else "SUCCEEDED") 10).2.2.1
      [⟨5, 1⟩, ⟨55, 10⟩] "SUCCEEDED" rfl,
   ((C8_monitor_poll_amended (fun n => if n < 2 then "ACTIVE" else "SUCCEEDED") 10).2.2.2.2
      [⟨5, 1⟩, ⟨55, 10⟩] "SUCCEEDED" rfl rfl).1⟩

/-! ## C2 — filename time-extent parsing in the drivers

All three drivers call `base.get_time_extent` on the assembled file
path: solr.py lines 146-150, globus.py lines 179-183, and
stac.py `_parse_file_daterange` (lines 161-173). The function
`get_time_extent` itself is not present in the source tree — only its
callers and its tests (`tests/test_base.py: test_get_time_extent`) are —
so it is modelled from the specification below. Driver file-info dicts
are modelled by `XInfo` with `Option` fields; a dict key that is absent
and a key set to `None` are identified.
-/

/-- A calendar date with an optional day, as parsed from `YYYYMM` or
`YYYYMMDD`. -/
structure DateT where
  year : ℕ
  month : ℕ
  day : Option ℕ
deriving DecidableEq

/-- An ASCII digit. -/
def digitC (c : Char) : Bool := 48 ≤ c.toNat && c.toNat ≤ 57

/-- Decimal value of a digit run. -/
def digitsToNat (cs : List Char) : ℕ :=
  cs.foldl (fun a c => a * 10 + (c.toNat - 48)) 0

/-- Gregorian leap year. -/
def isLeap (y : ℕ) : Bool := (y % 4 = 0 && !(y % 100 = 0)) || y % 400 = 0

/-- Days in a Gregorian month. -/
def daysInMonth (y m : ℕ) : ℕ :=
  if m = 2 then (if isLeap y then 29 else 28)
  else if m = 4 ∨ m = 6 ∨ m = 9 ∨ m = 11 then 30
  else 31

/-- Parse one side of the extent: six digits are `YYYYMM`, eight are
`YYYYMMDD`; the month and (when present) day must be valid. -/
def parseDatePart (run : List Char) : Option DateT :=
  if run.length = 6 then
    let m := digitsToNat (run.drop 4)
    if 1 ≤ m ∧ m ≤ 12 then some ⟨digitsToNat (run.take 4), m, none⟩ else none
  else if run.length = 8 then
    let y := digitsToNat (run.take 4)
    let m := digitsToNat ((run.drop 4).take 2)
    let d := digitsToNat (run.drop 6)
    if 1 ≤ m ∧ m ≤ 12 ∧ 1 ≤ d ∧ d ≤ daysInMonth y m then some ⟨y, m, some d⟩
    else none
  else none

/-- Attempt the `YYYYMM[DD]-YYYYMM[DD]` shape anchored at this position:
`none` when the shape is absent here, `some none` when the shape is
present but a date is invalid, `some (some ..)` on success. -/
def extentAt (cs : List Char) : Option (Option (DateT × DateT)) :=
  let r1 := cs.takeWhile digitC
  if r1.length = 6 ∨ r1.length = 8 then
    match cs.dropWhile digitC with
    | '-' :: rest2 =>
      let r2 := rest2.takeWhile digitC
      if r2.length = 6 ∨ r2.length = 8 then
        match parseDatePart r1, parseDatePart r2 with
        | some a, some b => some (some (a, b))
        | _, _ => some none
      else none
    | _ => none
  else none

/-- Scan the filename left to right for the first extent-shaped
substring. -/
def extentScan : List Char → Option (DateT × DateT)
  | [] => none
  | c :: cs =>
    match extentAt (c :: cs) with
    | none => extentScan cs
    | some none => none
    | some (some r) => some r

/-- Modelled from the spec: `base.get_time_extent`, which is called by
all three drivers but absent from the source tree. Per the
specification ("attempt to parse `YYYYMM[DD]-YYYYMM[DD]` from the
filename; if parseable to valid dates, populate `file_start`/`file_end`;
otherwise leave null") and the repository's own tests
(`test_get_time_extent`), it returns the `(tstart, tend)` pair, both
`None` when no such substring parses to valid dates. -/
def getTimeExtent (filename : String) : Option DateT × Option DateT :=
  match extentScan filename.data with
  | none => (none, none)
  | some (a, b) => (some a, some b)

/-- A driver's file-info record restricted to the fields the
time-extraction step touches. -/
structure XInfo where
  path : Option String
  fileStart : Option DateT
  fileEnd : Option DateT
deriving DecidableEq

/-- The identical extent-assignment step of the Solr and Globus drivers
(solr.py lines 146-150, globus.py lines 179-183): set both fields to
`None`, then populate them when a start was parsed. -/
def solrGlobusSetExtent (info : XInfo) (path : String) : XInfo :=
  match (getTimeExtent path).1 with
  | some ts =>
    { info with fileStart := some ts, fileEnd := (getTimeExtent path).2 }
  | none => { info with fileStart := none, fileEnd := none }

/-- `_parse_file_daterange` of the STAC driver (stac.py lines 161-173):
both fields `None` when the info has no path; otherwise each field is
set only when its side parsed, and left as it was otherwise. -/
def stacParseFileDaterange (info : XInfo) : XInfo :=
  match info.path with
  | none => { info with fileStart := none, fileEnd := none }
  | some p =>
    let info1 :=
      match (getTimeExtent p).1 with
      | some ts => { info with fileStart := some ts }
      | none => info
    match (getTimeExtent p).2 with
    | some te => { info1 with fileEnd := some te }
    | none => info1

lemma getTimeExtent_both_or_neither (filename : String) :
    getTimeExtent filename = (none, none)
    ∨ ∃ a b, getTimeExtent filename = (some a, some b) := by
  unfold getTimeExtent
  cases hs : extentScan filename.data with
  | none => exact Or.inl rfl
  | some r =>
    obtain ⟨a, b⟩ := r
    exact Or.inr ⟨a, b, by simp only [hs]⟩

/-- C2: every driver's time-extraction step is a total function of the
filename; when the filename carries a `YYYYMM[DD]-YYYYMM[DD]` substring
parsing to valid dates all three drivers populate both `file_start` and
`file_end` with them, and otherwise all three leave both fields null
(the Solr/Globus step resets them, the STAC step keeps a fresh info's
nulls); the parse never yields only one side. -/
theorem C2_time_extent_drivers (info : XInfo) (path : String) :
    (getTimeExtent path = (none, none)
      ∨ ∃ a b, getTimeExtent path = (some a, some b))
    ∧ (∀ a b, getTimeExtent path = (some a, some b) →
        solrGlobusSetExtent info path
          = { info with fileStart := some a, fileEnd := some b }
        ∧ (info.path = some path →
            stacParseFileDaterange info
              = { info with fileStart := some a, fileEnd := some b }))
    ∧ (getTimeExtent path = (none, none) →
        (solrGlobusSetExtent info path).fileStart = none
        ∧ (solrGlobusSetExtent info path).fileEnd = none
        ∧ (info.path = some path → info.fileStart = none → info.fileEnd = none →
            (stacParseFileDaterange info).fileStart = none
            ∧ (stacParseFileDaterange info).fileEnd = none))
    ∧ (info.path = none →
        (stacParseFileDaterange info).fileStart = none
        ∧ (stacParseFileDaterange info).fileEnd = none) := by
  refine ⟨getTimeExtent_both_or_neither path, ?_, ?_, ?_⟩
  · intro a b hab
    constructor
    · unfold solrGlobusSetExtent
      simp [hab]
    · intro hpath
      unfold stacParseFileDaterange
      simp [hpath, hab]
  · intro hnone
    refine ⟨?_, ?_, ?_⟩
    · unfold solrGlobusSetExtent
      simp [hnone]
    · unfold solrGlobusSetExtent
      simp [hnone]
    · intro hpath hfs hfe
      unfold stacParseFileDaterange
      simp [hpath, hnone, hfs, hfe]
  · intro hpath
    unfold stacParseFileDaterange
    simp [hpath]

/-- C2 (witness): on the repository's own test filenames, the parseable
name populates both fields with 1853-01 and 1853-12 in all three
drivers, and the name whose date is invalid (February 30th) leaves both
fields null. -/
theorem C2_time_extent_drivers_witness :
    solrGlobusSetExtent ⟨some "x", none, none⟩
        "tas_Amon_EC-Earth3_historical_r1i1p1f1_gr_185301-185312.nc"
      = ⟨some "x", some ⟨1853, 1, none⟩, some ⟨1853, 12, none⟩⟩
    ∧ (solrGlobusSetExtent ⟨some "x", none, none⟩
        "tas_Amon_EC-Earth3_historical_r1i1p1f1_gr_18530230-185312.nc").fileStart
      = none :=
  ⟨((C2_time_extent_drivers ⟨some "x", none, none⟩
      "tas_Amon_EC-Earth3_historical_r1i1p1f1_gr_185301-185312.nc").2.1
      ⟨1853, 1, none⟩ ⟨1853, 12, none⟩ (by decide)).1,
   ((C2_time_extent_drivers ⟨some "x", none, none⟩
      "tas_Amon_EC-Earth3_historical_r1i1p1f1_gr_18530230-185312.nc").2.2.1
      (by decide)).1⟩

/-! ## C3 — HTTPS download and the slow-download threshold

Embedding of `download_and_verify` (base.py lines 251-297). The
function issues the GET (`raise_for_status` on a non-2xx status),
streams every chunk to disk, hashes the file, deletes it and raises
`ValueError` on a hash mismatch, and on success logs one rate-store
write `(host, transfer_time, content_length * 1e-6)`. The streaming
loop contains no rate measurement and never reads
`conf["slow_download_threshold"]`; the error type below mirrors
`exceptions.py`, which defines no `StalledDownload` class — although
the repository's own tests (`tests/test_download.py`,
`tests/test_config.py: test_slow_cancel`) import `StalledDownload`
from `intake_esgf.exceptions` and expect `download_and_verify` to
raise it for a slow stream, and the `Config.set` docstring describes
`slow_download_threshold` as "the download rate below which a download
will be canceled in favor of another link".
-/

/-- What the wire and the disk do during one `download_and_verify`
call. `slowThreshold` records the configured
`slow_download_threshold`, which the function never consults. -/
structure DlEnv where
  status : ℕ
  chunks : List ℕ
  elapsedSec : Frac
  fileHash : String
  slowThreshold : Frac
deriving DecidableEq

/-- The exceptions `download_and_verify` can raise: `raise_for_status`
and the hash-mismatch `ValueError` (plus the `ValueError` from
`url.index` while computing the host). There is no stalled-download
case, matching `exceptions.py`. -/
inductive DlError where
  | httpError (status : ℕ) : DlError
  | hashMismatch : DlError
  | hostParseError : DlError
deriving DecidableEq

/-- A completed download: the bytes written and the single
`log_download_information(download_db, host, transfer_time,
content_length * 1e-6)` rate-store write. -/
structure DlSuccess where
  bytesWritten : ℕ
  rateWrite : String × Frac × Frac
deriving DecidableEq

/-- `download_and_verify(url, local_file, hash, hash_algorithm,
content_length, download_db)` (base.py lines 251-297). -/
def downloadAndVerify (env : DlEnv) (url expectedHash : String)
    (contentLength : ℕ) : Except DlError DlSuccess :=
  if 200 ≤ env.status ∧ env.status < 300 then
    if env.fileHash = expectedHash then
      match parseHost url with
      | some host =>
        .ok { bytesWritten := env.chunks.foldl (· + ·) 0,
              rateWrite := (host, env.elapsedSec, ⟨contentLength, 1000000⟩) }
      | none => .error .hostParseError
    else .error .hashMismatch
  else .error (.httpError env.status)

/-- C3 (evaluation at the failing input): a GET that streams 1 Mb over
100 s (0.01 Mb/s) under `slow_download_threshold = 100` downloads to
completion and returns success — it is never aborted, because
`download_and_verify` contains no rate check and the configured
threshold is never read (the result is identical under every
threshold). -/
theorem C3_no_slow_abort_eval :
    downloadAndVerify
        { status := 200, chunks := [500000, 500000], elapsedSec := ⟨100, 1⟩,
          fileHash := "d41d8cd9", slowThreshold := ⟨100, 1⟩ }
        "https://esgf.node.org/thredds/f.nc" "d41d8cd9" 1000000
      = .ok { bytesWritten := 1000000,
              rateWrite := ("esgf.node.org", ⟨100, 1⟩, ⟨1000000, 1000000⟩) }
    ∧ (∀ (st : ℕ) (ch : List ℕ) (el : Frac) (fh : String) (t₁ t₂ : Frac)
        (url hash : String) (len : ℕ),
        downloadAndVerify ⟨st, ch, el, fh, t₁⟩ url hash len
          = downloadAndVerify ⟨st, ch, el, fh, t₂⟩ url hash len) :=
  ⟨rfl, fun _ _ _ _ _ _ _ _ _ => rfl⟩

end IntakeESGF
